import Mathlib

/-!
Verification development for the AI-IDS-Chiron core: a shallow embedding of
`anomaly_detector.py` (model bundle persistence, hardened deserialization,
path resolution) and `packet_processor.py` (ring window, per-packet and batch
feature engineering), with theorems settling the specification claims.
-/

namespace Chiron

/-! ## SHA-256 (model of `hashlib.sha256(...).hexdigest()`) -/

namespace SHA256

def M32 : Nat := 2 ^ 32

def add32 (a b : Nat) : Nat := (a + b) % M32

def rotr (r n : Nat) : Nat := ((n >>> r) ||| (n <<< (32 - r))) % M32

def bigSigma0 (x : Nat) : Nat := rotr 2 x ^^^ rotr 13 x ^^^ rotr 22 x

def bigSigma1 (x : Nat) : Nat := rotr 6 x ^^^ rotr 11 x ^^^ rotr 25 x

def smallSigma0 (x : Nat) : Nat := rotr 7 x ^^^ rotr 18 x ^^^ (x >>> 3)

def smallSigma1 (x : Nat) : Nat := rotr 17 x ^^^ rotr 19 x ^^^ (x >>> 10)

def ch (x y z : Nat) : Nat := (x &&& y) ^^^ ((x ^^^ 0xFFFFFFFF) &&& z)

def maj (x y z : Nat) : Nat := (x &&& y) ^^^ (x &&& z) ^^^ (y &&& z)

def K : List Nat :=
  [1116352408, 1899447441, 3049323471, 3921009573, 961987163, 1508970993,
   2453635748, 2870763221, 3624381080, 310598401, 607225278, 1426881987,
   1925078388, 2162078206, 2614888103, 3248222580, 3835390401, 4022224774,
   264347078, 604807628, 770255983, 1249150122, 1555081692, 1996064986,
   2554220882, 2821834349, 2952996808, 3210313671, 3336571891, 3584528711,
   113926993, 338241895, 666307205, 773529912, 1294757372, 1396182291,
   1695183700, 1986661051, 2177026350, 2456956037, 2730485921, 2820302411,
   3259730800, 3345764771, 3516065817, 3600352804, 4094571909, 275423344,
   430227734, 506948616, 659060556, 883997877, 958139571, 1322822218,
   1537002063, 1747873779, 1955562222, 2024104815, 2227730452, 2361852424,
   2428436474, 2756734187, 3204031479, 3329325298]

def H0 : List Nat :=
  [1779033703, 3144134277, 1013904242, 2773480762, 1359893119, 2600822924,
   528734635, 1541459225]

def lenBytes (n : Nat) : List Nat :=
  (List.range 8).map fun i => (n >>> (8 * (7 - i))) &&& 0xFF

def pad (msg : List Nat) : List Nat :=
  let L := msg.length
  let zeros := (56 + 64 - (L + 1) % 64) % 64
  msg ++ [0x80] ++ List.replicate zeros 0 ++ lenBytes (8 * L)

def blockWords (block : List Nat) : List Nat :=
  (List.range 16).map fun j =>
    block.getD (4 * j) 0 * 2 ^ 24 + block.getD (4 * j + 1) 0 * 2 ^ 16 +
      block.getD (4 * j + 2) 0 * 2 ^ 8 + block.getD (4 * j + 3) 0

def schedule (w16 : List Nat) : List Nat :=
  (List.range 48).foldl
    (fun w _ =>
      w ++ [(smallSigma1 (w.getD (w.length - 2) 0) + w.getD (w.length - 7) 0 +
        smallSigma0 (w.getD (w.length - 15) 0) + w.getD (w.length - 16) 0) % M32])
    w16

def round (w : List Nat) (s : List Nat) (i : Nat) : List Nat :=
  let a := s.getD 0 0
  let b := s.getD 1 0
  let c := s.getD 2 0
  let d := s.getD 3 0
  let e := s.getD 4 0
  let f := s.getD 5 0
  let g := s.getD 6 0
  let h := s.getD 7 0
  let t1 := (h + bigSigma1 e + ch e f g + K.getD i 0 + w.getD i 0) % M32
  let t2 := (bigSigma0 a + maj a b c) % M32
  [add32 t1 t2, a, b, c, add32 d t1, e, f, g]

def compress (h : List Nat) (block : List Nat) : List Nat :=
  let w := schedule (blockWords block)
  let s := (List.range 64).foldl (round w) h
  (List.range 8).map fun i => add32 (h.getD i 0) (s.getD i 0)

def sha256words (msg : List Nat) : List Nat :=
  let p := pad msg
  let blocks := (List.range (p.length / 64)).map fun i => (p.drop (64 * i)).take 64
  blocks.foldl compress H0

def hexChar (n : Nat) : Char :=
  if n < 10 then Char.ofNat (48 + n) else Char.ofNat (87 + n)

def wordHex (w : Nat) : List Char :=
  (List.range 8).map fun i => hexChar ((w >>> (4 * (7 - i))) &&& 0xF)

def hexdigest (msg : List Nat) : String :=
  String.mk ((sha256words msg).foldr (fun w acc => wordHex w ++ acc) [])

/-- UTF-8 encoding of a single code point, as a list of byte values. -/
def utf8Bytes (c : Nat) : List Nat :=
  if c < 0x80 then [c]
  else if c < 0x800 then [0xC0 + c / 64, 0x80 + c % 64]
  else if c < 0x10000 then
    [0xE0 + c / 4096, 0x80 + (c / 64) % 64, 0x80 + c % 64]
  else
    [0xF0 + c / 262144, 0x80 + (c / 4096) % 64, 0x80 + (c / 64) % 64,
     0x80 + c % 64]

/-- Model of `str.encode("utf-8")`. -/
def strBytes (s : String) : List Nat :=
  s.data.foldr (fun ch acc => utf8Bytes ch.toNat ++ acc) []

end SHA256

/-! ## AnomalyDetector (`anomaly_detector.py`)

The model and scaler objects are opaque to the persistence layer; they are
represented by type parameters `M` and `S`.  `joblib.dump`/pickle serialization
is modelled as the identity embedding of the payload structure: two bundle
files are byte-identical exactly when their payload structures are equal. -/

namespace AnomalyDetector

/-- Metadata block written by `save_model` (`payload["meta"]`). -/
structure Meta where
  contamination : ℚ
  n_estimators : ℤ
  random_state : ℤ
  version : String
  trained_at : String
  feature_checksum : String
deriving DecidableEq

/-- Deserialized bundle dictionary: `payload.get(key, None)` yields `none`
when a key is absent.  `meta := none` models an absent `meta` key (read back
as the empty dict). -/
structure BundlePayload (M S : Type) where
  model : Option M
  scaler : Option S
  feature_names : Option (List String)
  meta : Option Meta
deriving DecidableEq

/-- Result of unpickling: `load_model` requires a dict at the top level. -/
inductive PickleValue (M S : Type) where
  | dict (p : BundlePayload M S)
  | nondict
deriving DecidableEq

/-- Observable content of a serialized bundle stream: the `(module, name)`
pairs the unpickler resolves through `find_class`, and the decoding outcome
once those resolutions succeed (`Except.error` models any other exception
raised while reading the stream). -/
structure PickleStream (M S : Type) where
  refs : List (String × String)
  outcome : Except String (PickleValue M S)

/-- Mutable fields of an `AnomalyDetector` instance that participate in
persistence. -/
structure DetState (M S : Type) where
  model : Option M
  scaler : Option S
  feature_names : Option (List String)
  meta : Option Meta
  contamination : ℚ
  n_estimators : ℤ
  random_state : ℤ
deriving DecidableEq

/-- Errors raised by the persistence paths: `SecurityError`, `RuntimeError`,
`FileNotFoundError` and `ValueError` respectively. -/
inductive LoadErr where
  | security (msg : String)
  | runtime (msg : String)
  | notFound (msg : String)
  | value (msg : String)
deriving DecidableEq

/-- The deny-list `_BANNED_GLOBALS`. -/
def BANNED_GLOBALS : List (String × String) :=
  [("os", "system"), ("posix", "system"), ("subprocess", "Popen"),
   ("subprocess", "call"), ("subprocess", "check_call"), ("builtins", "eval"),
   ("builtins", "exec"), ("builtins", "__import__")]

/-- Model of `_feature_checksum`: empty or absent names give `""`, otherwise
the hex SHA-256 of the comma-joined names. -/
def feature_checksum (names : Option (List String)) : String :=
  match names with
  | none => ""
  | some [] => ""
  | some ns => SHA256.hexdigest (SHA256.strBytes (String.intercalate "," ns))

/-- Model of `_load_secure_payload`: each global reference is vetted by
`_SecureUnpickler.find_class` (first deny-listed pair raises `SecurityError`,
re-raised unwrapped); any other stream failure is wrapped into
`RuntimeError("Failed to load model bundle")`; a non-dict payload raises
`RuntimeError("Model bundle has unexpected structure")`. -/
def load_secure_payload {M S : Type} (s : PickleStream M S) :
    Except LoadErr (BundlePayload M S) :=
  match s.refs.find? (fun r => BANNED_GLOBALS.contains r) with
  | some r =>
      .error (.security ("Blocked unsafe global reference " ++ r.1 ++ "." ++ r.2))
  | none =>
      match s.outcome with
      | .error _ => .error (.runtime "Failed to load model bundle")
      | .ok (.nondict) => .error (.runtime "Model bundle has unexpected structure")
      | .ok (.dict p) => .ok p

/-- Model of `load_model`.  The input is `none` when no file exists at the
path.  The returned state is the detector's field content when the call
finishes (normally or by raising); the `Option LoadErr` is the exception
raised, if any.  Field assignments happen only after `_load_secure_payload`
returns, mirroring the source order. -/
def load_model {M S : Type} (st : DetState M S)
    (file : Option (PickleStream M S)) : DetState M S × Option LoadErr :=
  match file with
  | none => (st, some (.notFound "Model file does not exist"))
  | some s =>
      match load_secure_payload s with
      | .error e => (st, some e)
      | .ok p =>
          let st' := { st with
            model := p.model
            scaler := p.scaler
            feature_names := p.feature_names
            meta := p.meta }
          if p.model.isNone || p.scaler.isNone || p.feature_names.isNone then
            (st', some (.runtime "Loaded model bundle is incomplete."))
          else
            (st', none)

/-- Payload dictionary built by `save_model` before dumping, with `trained_at`
stamped from the current clock. -/
def savePayload {M S : Type} (st : DetState M S) (trained_at : String) :
    BundlePayload M S :=
  { model := st.model
    scaler := st.scaler
    feature_names := st.feature_names
    meta := some
      { contamination := st.contamination
        n_estimators := st.n_estimators
        random_state := st.random_state
        version := "1.0.0"
        trained_at := trained_at
        feature_checksum := feature_checksum st.feature_names } }

/-- Destination directory as `save_model` sees it: the contents of the target
path and the number of live `model-*.tmp` files in the directory. -/
structure SaveFS (M S : Type) where
  target : Option (BundlePayload M S)
  temps : Nat
deriving DecidableEq

/-- Model of `save_model`.  `dumpErr`/`replaceErr` are the exceptions raised
by `joblib.dump` and `os.replace` (if any).  `tempfile.mkstemp` creates a temp
file in the destination directory; on any error the handler removes it and
re-raises; on success `os.replace` atomically moves it onto the target. -/
def save_model {M S : Type} (st : DetState M S) (trained_at : String)
    (fs : SaveFS M S) (dumpErr replaceErr : Option String) :
    SaveFS M S × Option String :=
  let payload := savePayload st trained_at
  let fs1 : SaveFS M S := { fs with temps := fs.temps + 1 }
  match dumpErr with
  | some e => ({ fs1 with temps := fs1.temps - 1 }, some e)
  | none =>
      match replaceErr with
      | some e => ({ fs1 with temps := fs1.temps - 1 }, some e)
      | none => ({ target := some payload, temps := fs1.temps - 1 }, none)

/-- Pure-path component lists: `Path.resolve` normalizes `.` and `..`
(at the root, `..` stays at the root). -/
def resolveParts (parts : List String) : List String :=
  parts.foldl
    (fun acc c =>
      if c = "." then acc else if c = ".." then acc.dropLast else acc ++ [c])
    []

/-- A filesystem path: absolute flag plus components. -/
structure PyPath where
  absolute : Bool
  parts : List String
deriving DecidableEq

/-- Model of `_resolve_model_path`.  `modelDir` is the resolved
`DEFAULT_MODEL_DIR`; `exists?` tells whether the resolved path exists.
Absolute candidates are resolved as-is; relative candidates are joined onto
`modelDir` and must stay inside it (`Path.relative_to` succeeds exactly when
`modelDir` is a component prefix), raising `ValueError` otherwise before the
existence check and before any file is opened. -/
def resolve_model_path (modelDir : List String) (p : PyPath)
    (mustExist : Bool) (existsAt : Bool) : Except LoadErr (List String) :=
  if p.absolute then
    let resolved := resolveParts p.parts
    if mustExist && !existsAt then .error (.notFound "Model file does not exist")
    else .ok resolved
  else
    let resolved := resolveParts (modelDir ++ p.parts)
    if modelDir.isPrefixOf resolved then
      if mustExist && !existsAt then .error (.notFound "Model file does not exist")
      else .ok resolved
    else
      .error (.value "Model path escapes allowed directory")

end AnomalyDetector

/-! ## PacketProcessor (`packet_processor.py`)

IEEE-754 doubles are modelled by `PyFloat`: a finite rational payload plus the
special values NaN, `+Inf` and `-Inf`.  The only operation that can produce a
special value in this code is `log1p` on a non-positive argument; the value of
the logarithm on positive arguments is transcendental, so the defining
equations take the (mathematical) function `q ↦ ln (1 + q)` on positive
integers as an explicit parameter `L` and constrain only the structure around
it, exactly as the code does. -/

namespace PacketProcessor

/-- A 64-bit float value: finite payload or special value. -/
inductive PyFloat where
  | finite (q : ℚ)
  | nan
  | inf
  | ninf
deriving DecidableEq

/-- True on NaN (model of `np.isnan`). -/
def PyFloat.isNanB : PyFloat → Bool
  | .nan => true
  | _ => false

/-- True on NaN and on either infinity. -/
def PyFloat.isSpecialB : PyFloat → Bool
  | .finite _ => false
  | _ => true

/-- Model of `np.nan_to_num(·, nan=0.0, posinf=0.0, neginf=0.0)` on one
entry. -/
def nan_to_num : PyFloat → PyFloat
  | .finite q => .finite q
  | _ => .finite 0

/-- Model of `np.log1p` on an integer packet size cast to float: finite
`ln (1 + n)` for `n > 0` (with `L` the logarithm), exactly `0.0` for `n = 0`,
`-Inf` at `n = -1` and NaN below. -/
def np_log1p (L : ℤ → ℚ) (n : ℤ) : PyFloat :=
  if 0 < n then .finite (L n)
  else if n = 0 then .finite 0
  else if n = -1 then .ninf
  else .nan

/-- The `PacketWindow` ring buffer: fixed-size slot list, start index and
count, as in the source (`_buffer`, `_capacity`, `_start`, `_count`).
Unfilled slots hold `none`. -/
structure PacketWindow (α : Type) where
  buffer : List (Option α)
  capacity : Nat
  start : Nat
  count : Nat
deriving DecidableEq

namespace PacketWindow

/-- Model of `__init__`: `max(0, int(capacity))` slots, all empty. -/
def init (α : Type) (capacity : ℤ) : PacketWindow α :=
  { buffer := List.replicate capacity.toNat none
    capacity := capacity.toNat
    start := 0
    count := 0 }

/-- Model of `maxlen`. -/
def maxlen {α : Type} (w : PacketWindow α) : Nat := w.capacity

/-- Model of `append`: drop when capacity is 0; write at the next free slot
while not full; otherwise overwrite the oldest slot and advance `start`. -/
def append {α : Type} (w : PacketWindow α) (x : α) : PacketWindow α :=
  if w.capacity = 0 then w
  else if w.count < w.capacity then
    { w with
      buffer := w.buffer.set ((w.start + w.count) % w.capacity) (some x)
      count := w.count + 1 }
  else
    { w with
      buffer := w.buffer.set w.start (some x)
      start := (w.start + 1) % w.capacity }

/-- Model of `popleft`: `none` stands for the `IndexError` on an empty
window. -/
def popleft {α : Type} (w : PacketWindow α) : Option α × PacketWindow α :=
  if w.count = 0 then (none, w)
  else
    (w.buffer.getD w.start none,
     { w with start := (w.start + 1) % w.capacity, count := w.count - 1 })

/-- Model of `clear`. -/
def clear {α : Type} (w : PacketWindow α) : PacketWindow α :=
  { w with start := 0, count := 0 }

/-- Model of `extend`: repeated `append`. -/
def extend {α : Type} (w : PacketWindow α) (records : List α) : PacketWindow α :=
  records.foldl append w

/-- Model of `__iter__`: slot `(start + i) % capacity` for `i < count`, in
order. -/
def toList {α : Type} (w : PacketWindow α) : List (Option α) :=
  (List.range w.count).map fun i => w.buffer.getD ((w.start + i) % w.capacity) none

/-- The items yielded by iteration (model of `to_list`; on well-formed windows
every iterated slot is filled). -/
def items {α : Type} (w : PacketWindow α) : List α :=
  w.toList.filterMap id

/-- Representation invariant maintained by the `PacketWindow` operations. -/
def Wf {α : Type} (w : PacketWindow α) : Prop :=
  w.buffer.length = w.capacity ∧ w.count ≤ w.capacity ∧
    (w.start < w.capacity ∨ (w.capacity = 0 ∧ w.start = 0)) ∧
    w.toList.all Option.isSome = true

instance {α : Type} (w : PacketWindow α) : Decidable (Wf w) := by
  unfold Wf; infer_instance

end PacketWindow

/-- The `PacketRecord` dataclass. -/
structure PacketRecord where
  timestamp : ℚ
  src_ip : String
  dest_ip : String
  protocol : ℤ
  packet_size : ℤ
  sport : ℤ
  dport : ℤ
deriving DecidableEq

/-- A pooled blank record (`PacketRecord(0.0, "", "", 0, 0, 0, 0)`). -/
def blankRecord : PacketRecord :=
  { timestamp := 0, src_ip := "", dest_ip := "", protocol := 0,
    packet_size := 0, sport := 0, dport := 0 }

/-- One row of the engineered feature table, in `FEATURES` order. -/
structure FeatureRow where
  protocol : PyFloat
  packet_size_log : PyFloat
  time_diff : PyFloat
  dport : PyFloat
  is_ephemeral_sport : PyFloat
  unique_dports_15s : PyFloat
  direction : PyFloat
deriving DecidableEq

/-- True when some entry of the row is NaN. -/
def rowHasNan (r : FeatureRow) : Bool :=
  r.protocol.isNanB || r.packet_size_log.isNanB || r.time_diff.isNanB ||
    r.dport.isNanB || r.is_ephemeral_sport.isNanB ||
    r.unique_dports_15s.isNanB || r.direction.isNanB

/-- True when some entry of the row is NaN or infinite. -/
def rowHasSpecial (r : FeatureRow) : Bool :=
  r.protocol.isSpecialB || r.packet_size_log.isSpecialB ||
    r.time_diff.isSpecialB || r.dport.isSpecialB ||
    r.is_ephemeral_sport.isSpecialB || r.unique_dports_15s.isSpecialB ||
    r.direction.isSpecialB

/-- `np.nan_to_num` applied to every entry of a row. -/
def sanitizeRow (r : FeatureRow) : FeatureRow :=
  { protocol := nan_to_num r.protocol
    packet_size_log := nan_to_num r.packet_size_log
    time_diff := nan_to_num r.time_diff
    dport := nan_to_num r.dport
    is_ephemeral_sport := nan_to_num r.is_ephemeral_sport
    unique_dports_15s := nan_to_num r.unique_dports_15s
    direction := nan_to_num r.direction }

/-- Mutable state of a `PacketProcessor`: local IPs, configured window size,
the ring window, the record pool, the global last timestamp and the
per-source port-recency table `_active_ports`. -/
structure ProcState where
  local_ips : List String
  window_size : ℤ
  packet_data : PacketWindow PacketRecord
  record_pool : List PacketRecord
  last_timestamp : Option ℚ
  active_ports : List (String × List (ℤ × ℚ))
deriving DecidableEq

/-- Model of `__init__(window_size)`: `_gather_local_ips` is
environment-dependent, so the gathered set is a parameter. -/
def procInit (ips : List String) (window_size : ℤ) : ProcState :=
  { local_ips := ips
    window_size := window_size
    packet_data := PacketWindow.init PacketRecord window_size
    record_pool := List.replicate window_size.toNat blankRecord
    last_timestamp := none
    active_ports := [] }

/-- Dict write `d[k] = v` on an association list: replace in place, or append
a fresh key. -/
def dictSet {κ β : Type} [BEq κ] (d : List (κ × β)) (k : κ) (v : β) :
    List (κ × β) :=
  if d.any (fun e => e.1 == k) then
    d.map fun e => if e.1 == k then (k, v) else e
  else
    d ++ [(k, v)]

/-- Model of `_update_unique_dports`: stamp the port with the packet
timestamp, purge entries strictly older than `ts - 15.0`, drop the per-source
table when empty (returning 0), else return the table size. -/
def update_unique_dports (active : List (String × List (ℤ × ℚ)))
    (ts : ℚ) (src_ip : String) (dport : ℤ) :
    List (String × List (ℤ × ℚ)) × Nat :=
  let ports0 := match active.find? (fun e => e.1 == src_ip) with
    | some e => e.2
    | none => []
  let ports1 := dictSet ports0 dport ts
  let cutoff := ts - 15
  let ports2 :=
    if ports1 = [] then ports1
    else ports1.filter fun e => !decide (e.2 < cutoff)
  if ports2 = [] then
    (active.filter (fun e => !(e.1 == src_ip)), 0)
  else
    (dictSet active src_ip ports2, ports2.length)

/-- Model of `_compute_incremental_features`: returns the updated state
(`_last_timestamp`, `_active_ports`) and the feature dict.  `L` is the
logarithm used by `math.log1p` on positive sizes. -/
def compute_incremental_features (L : ℤ → ℚ) (st : ProcState)
    (r : PacketRecord) : ProcState × FeatureRow :=
  let time_diff : ℚ :=
    match st.last_timestamp with
    | none => 0
    | some lt => let d := r.timestamp - lt; if d < 0 then 0 else d
  let upd := update_unique_dports st.active_ports r.timestamp r.src_ip r.dport
  let st' := { st with last_timestamp := some r.timestamp, active_ports := upd.1 }
  (st',
   { protocol := .finite r.protocol
     packet_size_log :=
       if 0 < r.packet_size then .finite (L r.packet_size) else .finite 0
     time_diff := .finite time_diff
     dport := .finite r.dport
     is_ephemeral_sport := .finite (if 49152 ≤ r.sport then 1 else 0)
     unique_dports_15s := .finite upd.2
     direction :=
       .finite (if st.local_ips ≠ [] ∧ r.src_ip ∈ st.local_ips then 1 else 0) })

/-- Model of `extract_features` after the key-coercion stage (source lines
227–275 deterministically coerce the heterogeneous dict keys into exactly the
seven `PacketRecord` fields, given here as `p`): take a record from the pool,
else recycle the oldest slot when the window is full, else allocate; fill it
with the packet fields; append it to the window; return the incremental
features. -/
def extract_features (L : ℤ → ℚ) (st : ProcState) (p : PacketRecord) :
    ProcState × FeatureRow :=
  let maxlen := st.packet_data.maxlen
  let st1 :=
    if st.record_pool ≠ [] then
      { st with record_pool := st.record_pool.dropLast }
    else if maxlen ≠ 0 ∧ st.packet_data.count = maxlen then
      { st with packet_data := (st.packet_data.popleft).2 }
    else
      st
  let st2 := { st1 with packet_data := st1.packet_data.append p }
  compute_incremental_features L st2 p

/-- Python slice `l[-n:]` for `n ≥ 1`. -/
def takeLast {α : Type} (n : Nat) (l : List α) : List α :=
  l.drop (l.length - n)

/-- Model of `set_window_size`: clamp to `max(1, int(new_size))`, return
unchanged when equal to the current size, otherwise rebuild the ring from the
newest records, recycle trimmed records into the pool, and trim or refill the
pool to `max(0, new_size - len(packet_data))` blanks. -/
def set_window_size (st : ProcState) (new_size : ℤ) : ProcState :=
  let m := max 1 new_size
  if m = st.window_size then st
  else
    let current := st.packet_data.items
    let recent := takeLast m.toNat current
    let trimmed := current.take (current.length - m.toNat)
    let pd := PacketWindow.extend (PacketWindow.init PacketRecord m) recent
    let pool1 := st.record_pool ++ trimmed
    let target := (m - pd.count).toNat
    let pool2 :=
      if pool1.length < target then
        pool1 ++ List.replicate (target - pool1.length) blankRecord
      else
        pool1.take target
    { st with packet_data := pd, record_pool := pool2, window_size := m }

/-- Model of `Series.is_monotonic_increasing`: adjacent values are
nondecreasing. -/
def isMonotonic : List ℚ → Bool
  | [] => true
  | [_] => true
  | a :: b :: rest => decide (a ≤ b) && isMonotonic (b :: rest)

/-- Stable-sort step of `engineer_features`: keep the frame when the
timestamps are already nondecreasing (the index of a fresh frame is always
monotonic), otherwise stable-sort by timestamp (`kind="mergesort"`). -/
def sortByTimestamp (df : List PacketRecord) : List PacketRecord :=
  if isMonotonic (df.map (·.timestamp)) then df
  else df.mergeSort fun a b => a.timestamp ≤ b.timestamp

/-- The `time_diff` column: 0 for the first row, consecutive timestamp
differences after. -/
def timeDiffs (ts : List ℚ) : List ℚ :=
  match ts with
  | [] => []
  | _ :: rest => 0 :: List.zipWith (fun a b => a - b) rest ts

/-- The feature columns of `engineer_features` before the NaN guard, for the
already-sorted frame `dfp` given the processor state `st` (its window feeds
`unique_dports_15s`). -/
def rawRows (L : ℤ → ℚ) (st : ProcState) (dfp : List PacketRecord) :
    List FeatureRow :=
  let ts := dfp.map (·.timestamp)
  let windowRecs := st.packet_data.items
  let ud : PacketRecord → ℚ := fun r =>
    if windowRecs = [] then 0
    else
      let refTs := ts.getD (ts.length - 1) 0
      let cutoff := refTs - 15
      let recent := windowRecs.filter fun w => decide (cutoff ≤ w.timestamp)
      ((((recent.filter fun w => w.src_ip == r.src_ip).map (·.dport)).dedup).length : ℚ)
  List.zipWith
    (fun r td =>
      { protocol := .finite r.protocol
        packet_size_log := np_log1p L r.packet_size
        time_diff := .finite td
        dport := .finite r.dport
        is_ephemeral_sport := .finite (if 49152 ≤ r.sport then 1 else 0)
        unique_dports_15s := .finite (ud r)
        direction :=
          .finite
            (if st.local_ips ≠ [] then
              if r.src_ip ∈ st.local_ips then 1 else 0
            else 0) })
    dfp (timeDiffs ts)

/-- Model of `engineer_features`: empty in, empty out; otherwise sort,
compute the columns, and replace NaN/±Inf by 0.0 — but only when at least one
NaN is present (`if np.isnan(feature_view).any()`). -/
def engineer_features (L : ℤ → ℚ) (st : ProcState) (df : List PacketRecord) :
    List FeatureRow × List PacketRecord :=
  if df = [] then ([], [])
  else
    let dfp := sortByTimestamp df
    let raw := rawRows L st dfp
    (if raw.any rowHasNan then raw.map sanitizeRow else raw, dfp)

/-- An all-zero feature row, used as a `getD` default. -/
def blankRow : FeatureRow :=
  { protocol := .finite 0, packet_size_log := .finite 0, time_diff := .finite 0,
    dport := .finite 0, is_ephemeral_sport := .finite 0,
    unique_dports_15s := .finite 0, direction := .finite 0 }

/-- Representation invariant of a processor state: well-formed ring whose
capacity agrees with the configured window size. -/
def ProcWf (st : ProcState) : Prop :=
  st.packet_data.buffer.length = st.packet_data.capacity ∧
    st.packet_data.count ≤ st.packet_data.capacity ∧
    (st.packet_data.start < st.packet_data.capacity ∨ st.packet_data.start = 0) ∧
    st.packet_data.toList.all Option.isSome = true ∧
    st.packet_data.capacity = st.window_size.toNat

instance (st : ProcState) : Decidable (ProcWf st) := by
  unfold ProcWf; infer_instance

end PacketProcessor

/-! ## Ring-buffer lemmas -/

namespace PacketProcessor

namespace PacketWindow

lemma toList_length {α : Type} (w : PacketWindow α) : w.toList.length = w.count := by
  simp [toList]

lemma add_mod_ne (C s i j : Nat) (hij : i < j) (hj : j - i < C) :
    (s + i) % C ≠ (s + j) % C := by
  intro h
  have h2 : Nat.ModEq C (s + i) (s + j) := h
  have h3 : Nat.ModEq C i j := Nat.ModEq.add_left_cancel' s h2
  have h4 : C ∣ j - i := (Nat.modEq_iff_dvd' (le_of_lt hij)).mp h3
  have h5 : C ≤ j - i := Nat.le_of_dvd (by omega) h4
  omega

/-- Abstract effect of `append` on the iteration view. -/
lemma append_toList {α : Type} (w : PacketWindow α) (x : α)
    (hlen : w.buffer.length = w.capacity) (hcount : w.count ≤ w.capacity)
    (hstart : w.start < w.capacity ∨ w.start = 0) :
    (w.append x).toList =
      if w.capacity = 0 then w.toList
      else if w.count < w.capacity then w.toList ++ [some x]
      else w.toList.tail ++ [some x] := by
  by_cases hc0 : w.capacity = 0
  · simp [append, hc0]
  · have hCpos : 0 < w.capacity := Nat.pos_of_ne_zero hc0
    have hs : w.start < w.capacity := by
      rcases hstart with h | h
      · exact h
      · omega
    by_cases hlt : w.count < w.capacity
    · rw [if_neg hc0, if_pos hlt]
      simp only [append, if_neg hc0, if_pos hlt]
      unfold toList
      dsimp only
      rw [List.range_succ, List.map_append, List.map_cons, List.map_nil]
      congr 1
      · apply List.map_congr_left
        intro i hi
        have hi' : i < w.count := List.mem_range.mp hi
        rw [List.getD_eq_getElem?_getD, List.getD_eq_getElem?_getD,
          List.getElem?_set,
          if_neg (add_mod_ne w.capacity w.start i w.count hi' (by omega)).symm]
      · rw [List.getD_eq_getElem?_getD, List.getElem?_set,
          if_pos rfl, if_pos (by rw [hlen]; exact Nat.mod_lt _ hCpos)]
        rfl
    · have hfull : w.count = w.capacity := by omega
      rw [if_neg hc0, if_neg hlt]
      simp only [append, if_neg hc0, if_neg hlt]
      unfold toList
      dsimp only
      obtain ⟨C', hC'⟩ : ∃ C', w.capacity = C' + 1 := ⟨w.capacity - 1, by omega⟩
      rw [hfull, hC']
      conv_rhs => rw [List.range_succ_eq_map, List.map_cons, List.tail_cons,
        List.map_map]
      conv_lhs => rw [List.range_succ, List.map_append, List.map_cons,
        List.map_nil]
      congr 1
      · apply List.map_congr_left
        intro i hi
        have hi' : i < C' := List.mem_range.mp hi
        have hidx : ((w.start + 1) % (C' + 1) + i) % (C' + 1)
            = (w.start + (1 + i)) % (C' + 1) := by
          rw [Nat.mod_add_mod, Nat.add_assoc]
        have hne : ¬ (w.start = (w.start + (1 + i)) % (C' + 1)) := by
          have h0 : (w.start + 0) % (C' + 1) ≠ (w.start + (1 + i)) % (C' + 1) :=
            add_mod_ne (C' + 1) w.start 0 (1 + i) (by omega) (by omega)
          simpa [Nat.mod_eq_of_lt (hC' ▸ hs)] using h0
        rw [hidx, List.getD_eq_getElem?_getD, List.getElem?_set, if_neg hne]
        simp only [Function.comp, Nat.succ_eq_add_one]
        rw [List.getD_eq_getElem?_getD, Nat.add_comm 1 i]
      · have hidx : ((w.start + 1) % (C' + 1) + C') % (C' + 1)
            = w.start % (C' + 1) := by
          rw [Nat.mod_add_mod]
          have h1 : w.start + 1 + C' = w.start + (C' + 1) := by omega
          rw [h1, Nat.add_mod_right]
        rw [hidx, Nat.mod_eq_of_lt (hC' ▸ hs), List.getD_eq_getElem?_getD,
          List.getElem?_set, if_pos rfl, if_pos (by omega)]
        rfl


lemma extend_concat {α : Type} (w : PacketWindow α) (xs : List α) (x : α) :
    w.extend (xs ++ [x]) = (w.extend xs).append x := by
  simp [extend, List.foldl_append]

lemma append_capacity {α : Type} (w : PacketWindow α) (x : α) :
    (w.append x).capacity = w.capacity := by
  unfold append; split_ifs <;> rfl

lemma append_buffer_length {α : Type} (w : PacketWindow α) (x : α) :
    (w.append x).buffer.length = w.buffer.length := by
  unfold append; split_ifs <;> simp [List.length_set]

/-- Main retention lemma: pushing `xs` into a fresh window of capacity
`c` leaves exactly the newest `c.toNat` items, in order. -/
lemma extend_init_spec {α : Type} (c : ℤ) (xs : List α) :
    ((init α c).extend xs).capacity = c.toNat ∧
    ((init α c).extend xs).buffer.length = c.toNat ∧
    (((init α c).extend xs).start < c.toNat ∨ ((init α c).extend xs).start = 0) ∧
    ((init α c).extend xs).count = min xs.length c.toNat ∧
    ((init α c).extend xs).toList = (takeLast c.toNat xs).map some := by
  induction xs using List.reverseRecOn with
  | nil =>
      refine ⟨rfl, by simp [init, extend], Or.inr rfl, by simp [init, extend], ?_⟩
      simp [init, extend, toList, takeLast]
  | append_singleton xs x ih =>
      obtain ⟨hcap, hlen, hstart, hcount, hlist⟩ := ih
      rw [extend_concat]
      set w := (init α c).extend xs with hw
      have hcount_le : w.count ≤ w.capacity := by
        rw [hcap, hcount]; omega
      have hTL := append_toList w x (by rw [hlen, hcap]) hcount_le
        (by rw [hcap]; exact hstart)
      refine ⟨by rw [append_capacity, hcap],
        by rw [append_buffer_length, hlen], ?_, ?_, ?_⟩
      · by_cases hc0 : w.capacity = 0
        · have : w.append x = w := by unfold PacketWindow.append; rw [if_pos hc0]
          rw [this]
          exact hstart
        · unfold PacketWindow.append
          rw [if_neg hc0]
          by_cases hlt : w.count < w.capacity
          · rw [if_pos hlt]
            dsimp only
            exact hstart
          · rw [if_neg hlt]
            dsimp only
            rw [← hcap]
            exact Or.inl (Nat.mod_lt _ (Nat.pos_of_ne_zero hc0))
      · by_cases hc0 : w.capacity = 0
        · have : w.append x = w := by unfold PacketWindow.append; rw [if_pos hc0]
          rw [this, hcount]
          have : c.toNat = 0 := by rw [← hcap, hc0]
          simp [this]
        · unfold PacketWindow.append
          rw [if_neg hc0]
          by_cases hlt : w.count < w.capacity
          · rw [if_pos hlt]
            dsimp only
            rw [hcount]
            rw [hcap, hcount] at hlt
            simp only [List.length_append, List.length_singleton]
            omega
          · rw [if_neg hlt]
            dsimp only
            rw [hcount]
            rw [hcap, hcount] at hlt
            simp only [List.length_append, List.length_singleton]
            omega
      · rw [hTL]
        by_cases hc0 : w.capacity = 0
        · rw [if_pos hc0]
          rw [hlist]
          have hc' : c.toNat = 0 := by rw [← hcap, hc0]
          simp [hc', takeLast]
        · rw [if_neg hc0]
          by_cases hlt : w.count < w.capacity
          · rw [if_pos hlt, hlist]
            rw [hcap, hcount] at hlt
            have hxs : xs.length < c.toNat := by omega
            have h1 : takeLast c.toNat xs = xs := by
              simp [takeLast, Nat.sub_eq_zero_of_le (le_of_lt hxs)]
            have h2 : takeLast c.toNat (xs ++ [x]) = xs ++ [x] := by
              have h0 : xs.length + 1 - c.toNat = 0 := by omega
              simp [takeLast, h0]
            rw [h1, h2, List.map_append, List.map_cons, List.map_nil]
          · rw [if_neg hlt, hlist]
            rw [hcap, hcount] at hlt
            have hge : c.toNat ≤ xs.length := by omega
            have hcpos : 0 < c.toNat := by rw [← hcap]; omega
            rw [takeLast, takeLast, ← List.map_tail, List.tail_drop]
            have h3 : xs.length - c.toNat + 1 = (xs ++ [x]).length - c.toNat := by
              simp only [List.length_append, List.length_singleton]; omega
            rw [h3, List.drop_append_of_le_length (by omega), List.map_append,
              List.map_cons, List.map_nil]


lemma takeLast_length {α : Type} (n : Nat) (l : List α) :
    (takeLast n l).length = min n l.length := by
  simp only [takeLast, List.length_drop]
  omega

lemma takeLast_eq_self {α : Type} {n : Nat} {l : List α} (h : l.length ≤ n) :
    takeLast n l = l := by
  simp [takeLast, Nat.sub_eq_zero_of_le h]

lemma filterMap_id_map_some {α : Type} (l : List α) :
    (l.map some).filterMap id = l := by
  rw [List.filterMap_map]
  simp

lemma length_filterMap_id_of_all_isSome {α : Type} (l : List (Option α))
    (h : l.all Option.isSome = true) : (l.filterMap id).length = l.length := by
  induction l with
  | nil => rfl
  | cons a l ih =>
      cases a with
      | none => simp at h
      | some b =>
          simp only [List.all_cons, Bool.and_eq_true] at h
          simp [List.filterMap_cons, ih h.2]

end PacketWindow

end PacketProcessor

/-! ## Claim theorems: AnomalyDetector -/

namespace AnomalyDetector


/-- C1: a bundle stream that references a deny-listed pair makes `load_model`
raise `SecurityError`, propagated unwrapped, with the detector state
unchanged. -/
theorem banned_global_raises_security_error_and_leaves_state
    {M S : Type} (st : DetState M S) (s : PickleStream M S)
    (h : ∃ r ∈ s.refs, r ∈ BANNED_GLOBALS) :
    ∃ msg, load_model st (some s) = (st, some (.security msg)) := by
  have hfind : (s.refs.find? (fun r => BANNED_GLOBALS.contains r)).isSome = true := by
    obtain ⟨r, hr, hb⟩ := h
    exact List.find?_isSome.mpr ⟨r, hr, by simpa using hb⟩
  obtain ⟨r, hr⟩ := Option.isSome_iff_exists.mp hfind
  refine ⟨"Blocked unsafe global reference " ++ r.1 ++ "." ++ r.2, ?_⟩
  simp only [load_model, load_secure_payload, hr]

/-- Witness for C1 at a concrete poisoned stream. -/
theorem banned_global_raises_security_error_and_leaves_state_witness :
    ∃ msg,
      load_model (⟨none, none, none, none, 1/20, 200, 42⟩ : DetState Nat Nat)
          (some ⟨[("os", "system")], .ok .nondict⟩)
        = (⟨none, none, none, none, 1/20, 200, 42⟩, some (.security msg)) :=
  banned_global_raises_security_error_and_leaves_state _ _
    ⟨("os", "system"), by decide, by decide⟩

/-- C2: `save_model` goes through a temp file in the destination directory
plus an atomic rename; on success the target holds exactly the new bundle and
no temp residue remains; on any failure the error is propagated, the prior
target is untouched, and the temp file is removed. -/
theorem save_model_atomic {M S : Type} (st : DetState M S) (t : String)
    (fs : SaveFS M S) (de re : Option String) :
    ((save_model st t fs de re).2 = none →
      save_model st t fs de re
        = ({ target := some (savePayload st t), temps := fs.temps }, none)) ∧
    (∀ e, (save_model st t fs de re).2 = some e →
      (save_model st t fs de re).1 = fs ∧ (de = some e ∨ re = some e)) := by
  unfold save_model
  cases de <;> cases re <;> simp

/-- Witness for C2: a failing dump propagates the error and leaves the
filesystem unchanged, at a concrete instance. -/
theorem save_model_atomic_witness :
    (save_model (⟨none, none, none, none, 1/20, 200, 42⟩ : DetState Nat Nat)
        "2024-01-01T00:00:00+00:00" ⟨none, 0⟩ (some "disk full") none).1
      = ⟨none, 0⟩ ∧
    (some "disk full" = some "disk full" ∨ (none : Option String) = some "disk full") :=
  (save_model_atomic _ "2024-01-01T00:00:00+00:00" ⟨none, 0⟩ (some "disk full")
    none).2 "disk full" rfl

/-- C3 counterexample: an absolute path far outside the model directory is
resolved and accepted by `_resolve_model_path` — no containment check runs on
the absolute branch, so the claimed rejection does not happen. -/
theorem absolute_path_escape_accepted :
    resolve_model_path ["home", "user", "models"] ⟨true, ["etc", "passwd"]⟩
        true true
      = .ok ["etc", "passwd"] ∧
    ¬ ["home", "user", "models"] <+: ["etc", "passwd"] := by
  constructor
  · rfl
  · decide

/-- C3 (amended): relative candidates whose resolution traverses outside the
model directory are rejected with `ValueError` before the existence check and
before any file is opened; absolute candidates are resolved and accepted with
no containment check at all. -/
theorem resolve_model_path_relative_traversal_rejected :
    (∀ (dir : List String) (p : PyPath) (mE ex : Bool),
      p.absolute = false →
      dir.isPrefixOf (resolveParts (dir ++ p.parts)) = false →
      resolve_model_path dir p mE ex
        = .error (.value "Model path escapes allowed directory")) ∧
    (∀ (dir : List String) (p : PyPath) (mE : Bool),
      p.absolute = true →
      resolve_model_path dir p mE true = .ok (resolveParts p.parts)) := by
  constructor
  · intro dir p mE ex ha hpre
    unfold resolve_model_path
    rw [if_neg (by simp [ha]), if_neg (by simp [hpre])]
  · intro dir p mE ha
    unfold resolve_model_path
    rw [if_pos (by simp [ha]), if_neg (by simp)]

/-- Witness for C3 (amended): `../evil.pkl` under model dir `["models"]`. -/
theorem resolve_model_path_relative_traversal_rejected_witness :
    resolve_model_path ["models"] ⟨false, ["..", "evil.pkl"]⟩ true false
      = .error (.value "Model path escapes allowed directory") :=
  resolve_model_path_relative_traversal_rejected.1 ["models"]
    ⟨false, ["..", "evil.pkl"]⟩ true false rfl (by decide)

/-- C4 counterexample: a bundle whose `feature_names` is present but empty
and whose recorded `feature_checksum` matches nothing is loaded without any
error — `load_model` checks only for `None` fields and never validates the
checksum. -/
theorem load_model_accepts_empty_features_bad_checksum :
    load_model (⟨none, none, none, none, 1/20, 200, 42⟩ : DetState Nat Nat)
        (some ⟨[], .ok (.dict ⟨some 1, some 2, some [],
          some ⟨1/20, 200, 42, "1.0.0", "t", "deadbeef"⟩⟩)⟩)
      = (⟨some 1, some 2, some [],
          some ⟨1/20, 200, 42, "1.0.0", "t", "deadbeef"⟩, 1/20, 200, 42⟩, none) ∧
    "deadbeef" ≠ feature_checksum (some []) := by
  constructor
  · rfl
  · decide

/-- Helper: when an `Option` is not `None` it holds a value. -/
lemma isSome_of_not_isNone {A : Type} {o : Option A} (h : o.isNone = false) :
    o.isSome = true := by
  cases o <;> simp_all

/-- Characterization of the hardened reader: it returns a payload exactly
when no deny-listed global is referenced and the stream decodes to a dict. -/
lemma load_secure_payload_ok_iff {M S : Type} (s : PickleStream M S)
    (p : BundlePayload M S) :
    load_secure_payload s = .ok p ↔
      s.refs.find? (fun r => BANNED_GLOBALS.contains r) = none ∧
      s.outcome = .ok (.dict p) := by
  simp only [load_secure_payload]
  cases hf : s.refs.find? (fun r => BANNED_GLOBALS.contains r) with
  | some r => simp
  | none =>
      cases ho : s.outcome with
      | error e => simp
      | ok v =>
          cases v with
          | dict q => simp
          | nondict => simp

/-- C4 (amended): `load_model` succeeds exactly when the file exists, its
stream resolves no deny-listed global, decodes to a dict, and `model`,
`scaler` and `feature_names` are all present (not `None`); neither
non-emptiness nor the `feature_checksum` is validated. -/
theorem load_model_error_iff_incomplete {M S : Type} (st : DetState M S)
    (file : Option (PickleStream M S)) :
    (load_model st file).2 = none ↔
      ∃ s p, file = some s ∧
        s.refs.find? (fun r => BANNED_GLOBALS.contains r) = none ∧
        s.outcome = .ok (.dict p) ∧
        p.model.isSome = true ∧ p.scaler.isSome = true ∧
        p.feature_names.isSome = true := by
  cases file with
  | none => simp [load_model]
  | some s =>
      simp only [load_model]
      cases hp : load_secure_payload s with
      | error e =>
          constructor
          · intro h
            exact absurd h (by simp)
          · rintro ⟨s2, p2, hs2, hf2, ho2, -, -, -⟩
            cases hs2
            have hok : load_secure_payload s = .ok p2 :=
              (load_secure_payload_ok_iff s p2).mpr ⟨hf2, ho2⟩
            rw [hp] at hok
            exact Except.noConfusion hok
      | ok p =>
          have hchar := (load_secure_payload_ok_iff s p).mp hp
          by_cases hc :
              (p.model.isNone || p.scaler.isNone || p.feature_names.isNone) = true
          · dsimp only
            rw [if_pos hc]
            constructor
            · intro h
              exact absurd h (by simp)
            · rintro ⟨s2, p2, hs2, hf2, ho2, h1, h2, h3⟩
              cases hs2
              have hok : load_secure_payload s = .ok p2 :=
                (load_secure_payload_ok_iff s p2).mpr ⟨hf2, ho2⟩
              rw [hp] at hok
              obtain rfl : p2 = p := by injection hok with h; exact h.symm
              simp only [Bool.or_eq_true, Option.isNone_iff_eq_none] at hc
              rcases hc with (hm | hs1) | hfn
              · rw [hm] at h1; exact absurd h1 (by simp)
              · rw [hs1] at h2; exact absurd h2 (by simp)
              · rw [hfn] at h3; exact absurd h3 (by simp)
          · dsimp only
            rw [if_neg hc]
            simp only [Bool.or_eq_true, not_or, Bool.not_eq_true] at hc
            constructor
            · intro _
              exact ⟨s, p, rfl, hchar.1, hchar.2,
                isSome_of_not_isNone hc.1.1, isSome_of_not_isNone hc.1.2,
                isSome_of_not_isNone hc.2⟩
            · intro _
              rfl

/-- C5 counterexample: re-saving a reloaded bundle is not byte-identical to
the original save, because `save_model` re-stamps `meta.trained_at` from the
clock; at two distinct save instants the serialized payloads differ. -/
theorem resave_bundle_differs_in_trained_at :
    savePayload
        ((load_model (⟨some 0, some 0, some ["a"], none, 1/20, 200, 42⟩ :
            DetState Nat Nat)
          (some ⟨[], .ok (.dict (savePayload
            (⟨some 0, some 0, some ["a"], none, 1/20, 200, 42⟩ : DetState Nat Nat)
            "2024-01-01T00:00:00+00:00"))⟩)).1)
        "2024-01-01T00:00:01+00:00"
      ≠ savePayload
          (⟨some 0, some 0, some ["a"], none, 1/20, 200, 42⟩ : DetState Nat Nat)
          "2024-01-01T00:00:00+00:00" := by
  intro h
  have h2 := congrArg (fun p => p.meta.map Meta.trained_at) h
  simp [savePayload, load_model, load_secure_payload] at h2

/-- C5 (amended): the save–load–save round trip reproduces the original
bundle except for `meta.trained_at`, which is re-stamped at save time; in
particular `feature_checksum` is stable under re-save. -/
theorem bundle_roundtrip_modulo_trained_at {M S : Type} (x : DetState M S)
    (t1 t2 : String) (hm : x.model.isSome = true) (hs : x.scaler.isSome = true)
    (hf : x.feature_names.isSome = true) :
    (load_model x (some ⟨[], .ok (.dict (savePayload x t1))⟩)).2 = none ∧
    savePayload (load_model x (some ⟨[], .ok (.dict (savePayload x t1))⟩)).1 t2
      = { savePayload x t1 with
          meta := (savePayload x t1).meta.map fun m => { m with trained_at := t2 } } ∧
    (savePayload (load_model x (some ⟨[], .ok (.dict (savePayload x t1))⟩)).1
        t2).meta.map Meta.feature_checksum
      = ((savePayload x t1).meta.map Meta.feature_checksum) := by
  obtain ⟨m, hm2⟩ := Option.isSome_iff_exists.mp hm
  obtain ⟨sc, hs2⟩ := Option.isSome_iff_exists.mp hs
  obtain ⟨fn, hf2⟩ := Option.isSome_iff_exists.mp hf
  refine ⟨?_, ?_, ?_⟩ <;>
    simp [load_model, load_secure_payload, savePayload, hm2, hs2, hf2]

/-- Witness for C5 (amended) at a concrete trained detector. -/
theorem bundle_roundtrip_modulo_trained_at_witness :
    (load_model (⟨some 0, some 0, some ["a"], none, 1/20, 200, 42⟩ :
          DetState Nat Nat)
        (some ⟨[], .ok (.dict (savePayload
          (⟨some 0, some 0, some ["a"], none, 1/20, 200, 42⟩ : DetState Nat Nat)
          "t1"))⟩)).2 = none ∧
    savePayload
        (load_model (⟨some 0, some 0, some ["a"], none, 1/20, 200, 42⟩ :
            DetState Nat Nat)
          (some ⟨[], .ok (.dict (savePayload
            (⟨some 0, some 0, some ["a"], none, 1/20, 200, 42⟩ : DetState Nat Nat)
            "t1"))⟩)).1 "t2"
      = { savePayload (⟨some 0, some 0, some ["a"], none, 1/20, 200, 42⟩ :
            DetState Nat Nat) "t1" with
          meta := (savePayload (⟨some 0, some 0, some ["a"], none, 1/20, 200, 42⟩ :
            DetState Nat Nat) "t1").meta.map fun m => { m with trained_at := "t2" } } ∧
    (savePayload
        (load_model (⟨some 0, some 0, some ["a"], none, 1/20, 200, 42⟩ :
            DetState Nat Nat)
          (some ⟨[], .ok (.dict (savePayload
            (⟨some 0, some 0, some ["a"], none, 1/20, 200, 42⟩ : DetState Nat Nat)
            "t1"))⟩)).1 "t2").meta.map Meta.feature_checksum
      = ((savePayload (⟨some 0, some 0, some ["a"], none, 1/20, 200, 42⟩ :
          DetState Nat Nat) "t1").meta.map Meta.feature_checksum) :=
  bundle_roundtrip_modulo_trained_at _ "t1" "t2" rfl rfl rfl


end AnomalyDetector

/-! ## Claim theorems: PacketProcessor -/

namespace PacketProcessor


/-- C6: for every requested capacity and every push sequence, the window
holds `min len C` items (so `len ≤ C` after every prefix of operations),
iteration yields exactly the newest `C` items in insertion order, and a
capacity-0 window is a valid no-op whose `append` drops the item. -/
theorem packet_window_push_retention (α : Type) (c : ℤ) (xs : List α) :
    ((PacketWindow.init α c).extend xs).count = min xs.length c.toNat ∧
    ((PacketWindow.init α c).extend xs).count ≤ c.toNat ∧
    ((PacketWindow.init α c).extend xs).toList
      = (takeLast c.toNat xs).map some ∧
    ∀ x, ((PacketWindow.init α 0).extend xs).append x
      = (PacketWindow.init α 0).extend xs := by
  obtain ⟨hcap, hlen, hstart, hcount, hlist⟩ := PacketWindow.extend_init_spec c xs
  refine ⟨hcount, by omega, hlist, ?_⟩
  intro x
  obtain ⟨hcap0, -, -, -, -⟩ := PacketWindow.extend_init_spec 0 xs
  unfold PacketWindow.append
  rw [if_pos (by rw [hcap0]; rfl)]

/-- C7 counterexample: with two records in the window, a requested new
capacity of 0 is clamped to 1, so the newest record is retained — not the
`min(0, 2) = 0` records the claim requires. -/
theorem set_window_size_zero_retains_one :
    (set_window_size
        ((extract_features (fun _ => 0)
          ((extract_features (fun _ => 0) (procInit [] 2)
            ⟨1, "10.0.0.1", "10.0.0.2", 6, 100, 1000, 80⟩).1)
          ⟨2, "10.0.0.1", "10.0.0.2", 6, 200, 1000, 81⟩).1)
        0).packet_data.items
      = [⟨2, "10.0.0.1", "10.0.0.2", 6, 200, 1000, 81⟩] ∧
    (set_window_size
        ((extract_features (fun _ => 0)
          ((extract_features (fun _ => 0) (procInit [] 2)
            ⟨1, "10.0.0.1", "10.0.0.2", 6, 100, 1000, 80⟩).1)
          ⟨2, "10.0.0.1", "10.0.0.2", 6, 200, 1000, 81⟩).1)
        0).packet_data.items ≠ [] := by
  constructor
  · decide
  · decide

/-- C7 (amended): `set_window_size` clamps the requested capacity to
`max(1, new_C)` and then retains exactly the newest
`min(max(1, new_C), len)` items of the window, in their original order,
discarding all older entries. -/
theorem set_window_size_retains_newest (st : ProcState) (n : ℤ)
    (h : ProcWf st) :
    (set_window_size st n).packet_data.items
      = takeLast (max 1 n).toNat st.packet_data.items := by
  obtain ⟨hlen, hcount, hstart, hall, hcapws⟩ := h
  have hlenitems : st.packet_data.items.length = st.packet_data.count := by
    unfold PacketWindow.items
    rw [PacketWindow.length_filterMap_id_of_all_isSome _ hall,
      PacketWindow.toList_length]
  unfold set_window_size
  by_cases heq : max 1 n = st.window_size
  · rw [if_pos heq]
    have hle : st.packet_data.items.length ≤ (max 1 n).toNat := by
      rw [hlenitems, heq]
      omega
    rw [PacketWindow.takeLast_eq_self hle]
  · rw [if_neg heq]
    dsimp only
    obtain ⟨hcap2, hlen2, hstart2, hcount2, hlist2⟩ :=
      PacketWindow.extend_init_spec (max 1 n)
        (takeLast (max 1 n).toNat st.packet_data.items)
    unfold PacketWindow.items
    unfold PacketWindow.items at hlist2
    rw [hlist2, PacketWindow.takeLast_eq_self
      (by rw [PacketWindow.takeLast_length]; omega)]
    exact PacketWindow.filterMap_id_map_some _

/-- Witness for C7 (amended) at a concrete well-formed processor. -/
theorem set_window_size_retains_newest_witness :
    ProcWf (procInit [] 2) ∧
    (set_window_size (procInit [] 2) 5).packet_data.items
      = takeLast (max 1 5 : ℤ).toNat (procInit [] 2).packet_data.items :=
  ⟨by decide, set_window_size_retains_newest _ 5 (by decide)⟩

lemma nan_to_num_not_special (x : PyFloat) : (nan_to_num x).isSpecialB = false := by
  cases x <;> rfl

lemma sanitizeRow_no_special (r : FeatureRow) :
    rowHasSpecial (sanitizeRow r) = false := by
  simp [rowHasSpecial, sanitizeRow, nan_to_num_not_special]

/-- C8 counterexample: a single packet of size `-1` puts `log1p(-1) = -Inf`
into the feature column with no NaN anywhere, so the NaN-only guard skips
`nan_to_num` and the returned table contains `-Inf`. -/
theorem engineer_features_returns_neg_infinity :
    (engineer_features (fun _ => 0) (procInit [] 5)
        [⟨1, "10.0.0.9", "10.0.0.2", 6, -1, 1000, 80⟩]).1
      = [{ protocol := .finite 6, packet_size_log := .ninf,
           time_diff := .finite 0, dport := .finite 80,
           is_ephemeral_sport := .finite 0, unique_dports_15s := .finite 0,
           direction := .finite 0 }] ∧
    ((engineer_features (fun _ => 0) (procInit [] 5)
        [⟨1, "10.0.0.9", "10.0.0.2", 6, -1, 1000, 80⟩]).1.any rowHasSpecial)
      = true := by
  constructor <;> decide

/-- C8 (amended): the returned feature table is sanitized — every NaN and
every ±Inf replaced by 0.0 — exactly when at least one NaN is present in the
computed columns; with no NaN present the columns are returned as computed,
so an infinity unaccompanied by a NaN survives into the returned table. -/
theorem engineer_features_sanitizes_only_when_nan
    (L : ℤ → ℚ) (st : ProcState) (df : List PacketRecord) :
    ((rawRows L st (sortByTimestamp df)).any rowHasNan = true →
      ∀ row ∈ (engineer_features L st df).1, rowHasSpecial row = false) ∧
    ((rawRows L st (sortByTimestamp df)).any rowHasNan = false →
      (engineer_features L st df).1 = rawRows L st (sortByTimestamp df)) := by
  unfold engineer_features
  by_cases hdf : df = []
  · rw [if_pos hdf]
    subst hdf
    constructor
    · intro _ row hrow
      simp at hrow
    · intro _
      rfl
  · rw [if_neg hdf]
    dsimp only
    constructor
    · intro hnan row hrow
      rw [if_pos hnan] at hrow
      obtain ⟨r0, hr0, rfl⟩ := List.mem_map.mp hrow
      exact sanitizeRow_no_special r0
    · intro hnan
      rw [if_neg (by simp [hnan])]

/-- Witness for C8 (amended): a size `-2` packet makes `log1p` produce NaN,
the guard fires, and the returned table is entirely special-value free. -/
theorem engineer_features_sanitizes_only_when_nan_witness :
    ∀ row ∈ (engineer_features (fun _ => 0) (procInit [] 5)
        [⟨1, "10.0.0.9", "10.0.0.2", 6, -2, 1000, 80⟩]).1,
      rowHasSpecial row = false :=
  (engineer_features_sanitizes_only_when_nan (fun _ => 0) (procInit [] 5)
    [⟨1, "10.0.0.9", "10.0.0.2", 6, -2, 1000, 80⟩]).1 (by decide)

lemma timeDiffs_length (ts : List ℚ) : (timeDiffs ts).length = ts.length := by
  cases ts with
  | nil => rfl
  | cons t rest => simp [timeDiffs]

lemma rawRows_length (L : ℤ → ℚ) (st : ProcState) (dfp : List PacketRecord) :
    (rawRows L st dfp).length = dfp.length := by
  unfold rawRows
  dsimp only
  rw [List.length_zipWith, timeDiffs_length, List.length_map]
  simp

lemma rawRows_getD_log (L : ℤ → ℚ) (st : ProcState) (dfp : List PacketRecord)
    (i : Nat) (h : i < dfp.length) :
    ((rawRows L st dfp).getD i blankRow).packet_size_log
      = np_log1p L ((dfp.getD i blankRecord).packet_size) := by
  have hlen : i < (rawRows L st dfp).length := by rw [rawRows_length]; exact h
  rw [List.getD_eq_getElem _ _ hlen, List.getD_eq_getElem _ _ h]
  unfold rawRows
  dsimp only
  rw [List.getElem_zipWith]

lemma np_log1p_nonneg (L : ℤ → ℚ) (n : ℤ) (h0 : 0 ≤ n) :
    np_log1p L n = if 0 < n then .finite (L n) else .finite 0 := by
  unfold np_log1p
  by_cases hpos : 0 < n
  · rw [if_pos hpos, if_pos hpos]
  · have hz : n = 0 := by omega
    subst hz
    norm_num

/-- C9 (amended): `packet_size_log` equals `ln(1 + packet_size)` for positive
sizes and `0` for non-positive sizes on the incremental path; on the batch
path the same holds for every row of the processed frame whose size is
non-negative, while negative sizes reach `log1p` unguarded (see the
counterexample for size `-1`). -/
theorem packet_size_log_spec :
    (∀ (L : ℤ → ℚ) (st : ProcState) (r : PacketRecord),
      (compute_incremental_features L st r).2.packet_size_log
        = if 0 < r.packet_size then .finite (L r.packet_size) else .finite 0) ∧
    (∀ (L : ℤ → ℚ) (st : ProcState) (df : List PacketRecord) (i : Nat),
      i < (engineer_features L st df).2.length →
      0 ≤ ((engineer_features L st df).2.getD i blankRecord).packet_size →
      ((engineer_features L st df).1.getD i blankRow).packet_size_log
        = if 0 < ((engineer_features L st df).2.getD i blankRecord).packet_size
          then .finite (L ((engineer_features L st df).2.getD i blankRecord).packet_size)
          else .finite 0) := by
  constructor
  · intro L st r
    rfl
  · intro L st df i hi h0
    by_cases hdf : df = []
    · subst hdf
      simp [engineer_features] at hi
    · have hfeat : engineer_features L st df
          = (if (rawRows L st (sortByTimestamp df)).any rowHasNan
             then (rawRows L st (sortByTimestamp df)).map sanitizeRow
             else rawRows L st (sortByTimestamp df), sortByTimestamp df) := by
        unfold engineer_features
        rw [if_neg hdf]
      rw [hfeat] at hi h0 ⊢
      dsimp only at hi h0 ⊢
      have hlog := rawRows_getD_log L st (sortByTimestamp df) i hi
      by_cases hnan : (rawRows L st (sortByTimestamp df)).any rowHasNan = true
      · rw [if_pos hnan]
        have hlen : i < (rawRows L st (sortByTimestamp df)).length := by
          rw [rawRows_length]
          exact hi
        have hmap : ((rawRows L st (sortByTimestamp df)).map sanitizeRow).getD i
              blankRow
            = sanitizeRow ((rawRows L st (sortByTimestamp df)).getD i blankRow) := by
          rw [List.getD_eq_getElem _ _ (by rw [List.length_map]; exact hlen),
            List.getElem_map, List.getD_eq_getElem _ _ hlen]
        rw [hmap]
        have hsan : (sanitizeRow ((rawRows L st (sortByTimestamp df)).getD i
              blankRow)).packet_size_log
            = nan_to_num (((rawRows L st (sortByTimestamp df)).getD i
              blankRow).packet_size_log) := rfl
        rw [hsan, hlog, np_log1p_nonneg L _ h0]
        split_ifs <;> rfl
      · rw [if_neg hnan, hlog, np_log1p_nonneg L _ h0]

/-- Witness for C9 (amended) at a concrete zero-size packet. -/
theorem packet_size_log_spec_witness :
    ((engineer_features (fun _ => 0) (procInit [] 3)
        [⟨1, "10.0.0.9", "10.0.0.2", 6, 0, 1000, 80⟩]).1.getD 0
      blankRow).packet_size_log
      = if 0 < ((engineer_features (fun _ => 0) (procInit [] 3)
            [⟨1, "10.0.0.9", "10.0.0.2", 6, 0, 1000, 80⟩]).2.getD 0
          blankRecord).packet_size
        then .finite ((fun _ => (0 : ℚ))
          ((engineer_features (fun _ => 0) (procInit [] 3)
            [⟨1, "10.0.0.9", "10.0.0.2", 6, 0, 1000, 80⟩]).2.getD 0
          blankRecord).packet_size)
        else .finite 0 :=
  packet_size_log_spec.2 (fun _ => 0) (procInit [] 3)
    [⟨1, "10.0.0.9", "10.0.0.2", 6, 0, 1000, 80⟩] 0 (by decide) (by decide)

/-- C9 counterexample: on the batch path a packet of size `-1` yields
`-Inf` as its returned `packet_size_log`, not the `0` the claim requires for
`packet_size ≤ 0`. -/
theorem batch_packet_size_log_neg_one :
    ((engineer_features (fun _ => 0) (procInit [] 5)
        [⟨1, "10.0.0.9", "10.0.0.2", 6, -1, 1000, 80⟩]).1.getD 0
      blankRow).packet_size_log = PyFloat.ninf ∧
    PyFloat.ninf ≠ PyFloat.finite 0 := by
  constructor <;> decide

lemma mem_dictSet {K B : Type} [BEq K] [LawfulBEq K] (d : List (K × B))
    (k : K) (v : B) : (k, v) ∈ dictSet d k v := by
  unfold dictSet
  by_cases h : d.any (fun e => e.1 == k) = true
  · rw [if_pos h]
    obtain ⟨e, he, heq⟩ := List.any_eq_true.mp h
    refine List.mem_map.mpr ⟨e, he, ?_⟩
    rw [if_pos heq]
  · rw [if_neg h]
    exact List.mem_append_right _ (List.mem_singleton.mpr rfl)

/-- C10: the just-observed destination port is stamped with the packet
timestamp before the stale purge and can never be stale itself, so
`_update_unique_dports` always returns at least 1 and its drop-and-return-0
branch is unreachable; consequently every `extract_features` call reports
`unique_dports_15s ≥ 1`. -/
theorem unique_dports_at_least_one :
    (∀ (active : List (String × List (ℤ × ℚ))) (ts : ℚ) (ip : String) (dp : ℤ),
      1 ≤ (update_unique_dports active ts ip dp).2) ∧
    (∀ (L : ℤ → ℚ) (st : ProcState) (p : PacketRecord),
      ∃ n : Nat, 1 ≤ n ∧
        (extract_features L st p).2.unique_dports_15s = .finite n) := by
  have key : ∀ (active : List (String × List (ℤ × ℚ))) (ts : ℚ) (ip : String)
      (dp : ℤ), 1 ≤ (update_unique_dports active ts ip dp).2 := by
    intro active ts ip dp
    unfold update_unique_dports
    dsimp only
    have hmem : (dp, ts) ∈ dictSet
        (match active.find? (fun e => e.1 == ip) with
          | some e => e.2
          | none => []) dp ts := mem_dictSet _ dp ts
    have hne1 : dictSet
        (match active.find? (fun e => e.1 == ip) with
          | some e => e.2
          | none => []) dp ts ≠ [] := List.ne_nil_of_mem hmem
    rw [if_neg hne1]
    have hmem2 : (dp, ts) ∈ (dictSet
        (match active.find? (fun e => e.1 == ip) with
          | some e => e.2
          | none => []) dp ts).filter fun e => !decide (e.2 < ts - 15) := by
      refine List.mem_filter.mpr ⟨hmem, ?_⟩
      have hnlt : ¬ (ts < ts - 15) := by linarith
      simp [hnlt]
    have hne2 : ((dictSet
        (match active.find? (fun e => e.1 == ip) with
          | some e => e.2
          | none => []) dp ts).filter fun e => !decide (e.2 < ts - 15)) ≠ [] :=
      List.ne_nil_of_mem hmem2
    rw [if_neg hne2]
    have hpos := List.length_pos.mpr hne2
    omega
  refine ⟨key, ?_⟩
  intro L st p
  unfold extract_features
  dsimp only
  exact ⟨_, key _ _ _ _, rfl⟩


end PacketProcessor

end Chiron
